import Mathlib

/-!
Verification of the WonderBox mesh loader / ray tracer.

The development shallowly embeds the C sources:
* `hash.h` — the 32-bit fingerprint hash (`int_hash32`, `hash`), modelled on
  `Nat` with explicit reduction modulo `2^32` where the C `uint32_t`
  arithmetic wraps;
* `main.c` — the STL mesh parser and vertex deduplicator (vertices are
  represented by the raw 32-bit bit patterns of their three float
  components, since the deduplicator and the hash only ever consume those
  bit patterns), and the ray / sphere / Blinn-Phong geometry pipeline,
  modelled over the reals.
-/

/-! ## Fingerprint hash (hash.h) -/

/-- One xorshift stage `x ^ (x >> k)` of the mixing function. -/
def xorshift (k x : ℕ) : ℕ := x ^^^ (x >>> k)

/-- One wrapping-multiplication stage `x *= c` on `uint32_t`. -/
def mulwrap (c x : ℕ) : ℕ := (x * c) % 2 ^ 32

/-- Function `int_hash32` from hash.h: three xor-shift / multiply rounds with the
hash-prospector constants, then a final shift-xor. -/
def int_hash32 (x0 : ℕ) : ℕ :=
  let x1 := x0 ^^^ (x0 >>> 17)
  let x2 := (x1 * 0xed5ad4bb) % 2 ^ 32
  let x3 := x2 ^^^ (x2 >>> 11)
  let x4 := (x3 * 0xac4c1b51) % 2 ^ 32
  let x5 := x4 ^^^ (x4 >>> 15)
  let x6 := (x5 * 0x31848bab) % 2 ^ 32
  x6 ^^^ (x6 >>> 14)

/-- Function `hash` from hash.h: starting from an accumulator of `0`, xor in each
component's bit pattern and mix with `int_hash32`. -/
def hash (x y z : ℕ) : ℕ :=
  let h0 : ℕ := 0
  let h1 := int_hash32 (h0 ^^^ x)
  let h2 := int_hash32 (h1 ^^^ y)
  int_hash32 (h2 ^^^ z)

/-! ## Mesh loader and vertex deduplicator (main.c) -/

/-- A vertex as the deduplicator sees it: the raw 32-bit bit patterns of its
three float components. -/
structure Vec3b where
  x : ℕ
  y : ℕ
  z : ℕ
  deriving DecidableEq, Repr

/-- The three (bit-pattern) vertices of one parsed STL triangle; the record's
normal and attribute count are read and discarded by the loader. -/
structure Triangle where
  v0 : Vec3b
  v1 : Vec3b
  v2 : Vec3b
  deriving DecidableEq, Repr

/-- Model of `struct vec3_uint32_hash_table_node_t`: stored key, assigned
unique-vertex index, and the next pointer (an arena index, or `none` for
`NULL`). -/
structure HNode where
  key : Vec3b
  value : ℕ
  next : Option ℕ
  deriving DecidableEq, Repr

/-- The loader's mutable state: the unique-vertex array, the preallocated
node arena (as the list of nodes allocated so far, so `nodes.length` plays
the role of `new_node_index`), and the bucket array mapping a bucket index
to the arena index of its head node (or `none` for an empty bucket). -/
structure LoaderState where
  uniqueVertices : List Vec3b
  nodes : List HNode
  buckets : ℕ → Option ℕ

/-- State after the allocation loop: no unique vertices, no allocated
nodes, all buckets `NULL`. -/
def initState : LoaderState :=
  { uniqueVertices := [], nodes := [], buckets := fun _ => none }

/-- The body of the per-vertex loop in `main` (main.c lines 184–199):
hash the vertex, reduce modulo the bucket count, and if the chosen bucket
is empty install a fresh node carrying the next unique index and append the
vertex; otherwise do nothing (the code checks only bucket emptiness). -/
def processVertex (numBuckets : ℕ) (s : LoaderState) (v : Vec3b) : LoaderState :=
  let bucketIndex := hash v.x v.y v.z % numBuckets
  match s.buckets bucketIndex with
  | some _ => s
  | none =>
      { uniqueVertices := s.uniqueVertices ++ [v]
        nodes := s.nodes ++ [{ key := v, value := s.uniqueVertices.length, next := none }]
        buckets := fun b => if b = bucketIndex then some s.nodes.length else s.buckets b }

/-- One iteration of the triangle loop: the three vertices of the record are
deduplicated in order. -/
def processTriangle (numBuckets : ℕ) (s : LoaderState) (t : Triangle) : LoaderState :=
  processVertex numBuckets (processVertex numBuckets (processVertex numBuckets s t.v0) t.v1) t.v2

/-- The stream of vertex occurrences, in file order. -/
def vertexStream (tris : List Triangle) : List Vec3b :=
  (tris.map fun t => [t.v0, t.v1, t.v2]).flatten

/-- Fold the per-vertex loop body over a list of vertex occurrences. -/
def processStream (numBuckets : ℕ) (s : LoaderState) (l : List Vec3b) : LoaderState :=
  l.foldl (processVertex numBuckets) s

/-- The whole parse loop of `main`: `3 * num_tris` buckets, triangles
processed in file order. -/
def loadMesh (tris : List Triangle) : LoaderState :=
  tris.foldl (processTriangle (3 * tris.length)) initState

/-! ## Byte-level STL parsing (main.c lines 144–183)

The file is a list of byte values.  `main` seeks past the 80-byte header,
reads the little-endian 32-bit triangle count, and then reads `num_tris`
50-byte records (12 bytes normal, 36 bytes vertices, 2 bytes attribute
count); the normal and the attribute count are discarded.  Any short read
aborts the load, which the parser models by returning `none`. -/

/-- Assemble a little-endian 32-bit value from four bytes. -/
def leU32 (b0 b1 b2 b3 : ℕ) : ℕ := b0 + 256 * (b1 + 256 * (b2 + 256 * b3))

/-- The little-endian 32-bit value stored at offset `i` of the byte list. -/
def u32At (l : List ℕ) (i : ℕ) : ℕ :=
  leU32 (l.getD i 0) (l.getD (i + 1) 0) (l.getD (i + 2) 0) (l.getD (i + 3) 0)

/-- Parse one 50-byte triangle record from the front of the byte list:
bytes 0–11 are the (discarded) normal, bytes 12–47 the three vertices'
nine float bit patterns, bytes 48–49 the (discarded) attribute count. -/
def parseTriangleRecord (l : List ℕ) : Option Triangle :=
  if 50 ≤ l.length then
    some
      { v0 := ⟨u32At l 12, u32At l 16, u32At l 20⟩
        v1 := ⟨u32At l 24, u32At l 28, u32At l 32⟩
        v2 := ⟨u32At l 36, u32At l 40, u32At l 44⟩ }
  else none

/-- Parse `n` consecutive 50-byte triangle records. -/
def parseTriangles : ℕ → List ℕ → Option (List Triangle)
  | 0, _ => some []
  | n + 1, l =>
      match parseTriangleRecord l with
      | none => none
      | some t =>
          match parseTriangles n (l.drop 50) with
          | none => none
          | some ts => some (t :: ts)

/-- Parse a whole STL byte stream: skip the 80-byte header, read the
triangle count, then the records. -/
def parseSTL (l : List ℕ) : Option (ℕ × List Triangle) :=
  if 84 ≤ l.length then
    let numTris := u32At l 80
    match parseTriangles numTris (l.drop 84) with
    | none => none
    | some ts => some (numTris, ts)
  else none

/-- End-to-end loader on raw bytes: parse, then run the deduplication loop
with `3 * num_tris` buckets as `main` does. -/
def loadSTL (l : List ℕ) : Option LoaderState :=
  match parseSTL l with
  | none => none
  | some (numTris, ts) => some (processStream (3 * numTris) initState (vertexStream ts))

/-! ## Lookup of the index assigned to a vertex occurrence -/

/-- The unique-vertex index a vertex's bit pattern is associated with in a
loader state: the value stored in the node installed at the vertex's
bucket, if any. -/
def assignedIndex (numBuckets : ℕ) (s : LoaderState) (v : Vec3b) : Option ℕ :=
  match s.buckets (hash v.x v.y v.z % numBuckets) with
  | none => none
  | some ni => (s.nodes.get? ni).map HNode.value

/-- The unique-vertex index associated with the `k`-th vertex occurrence of
the triangle stream, read off right after that occurrence is processed. -/
def occIndex (tris : List Triangle) (k : ℕ) : Option ℕ :=
  let numBuckets := 3 * tris.length
  let l := vertexStream tris
  match l.get? k with
  | none => none
  | some v => assignedIndex numBuckets (processStream numBuckets initState (l.take (k + 1))) v

/-! ## The deduplication step as the specification words it

The spec (§4.2) mandates, for a vertex whose bucket is occupied, walking
the bucket's singly-linked chain comparing raw bit patterns against each
stored key, treating the vertex as a duplicate only when a bit-identical
key is found, and otherwise prepending a new node to the chain.  The code
in main.c instead only tests bucket emptiness.  The following model is the
specification's algorithm, kept for comparison with `processVertex`. -/

/-- State of the specification's chain-walking deduplicator: buckets hold
whole chains of (key, assigned index) nodes. -/
structure SpecState where
  uniqueVertices : List Vec3b
  buckets : ℕ → List (Vec3b × ℕ)

/-- Empty chain-walking state. -/
def specInitState : SpecState :=
  { uniqueVertices := [], buckets := fun _ => [] }

/-- The specification's per-vertex step: walk the chosen bucket's chain
comparing bit patterns; on a miss, prepend a node with the next sequential
index and append the vertex to the unique-vertex sequence. -/
def spec_processVertex (numBuckets : ℕ) (s : SpecState) (v : Vec3b) : SpecState :=
  let bucketIndex := hash v.x v.y v.z % numBuckets
  if (s.buckets bucketIndex).any (fun node => node.1 = v) then s
  else
    { uniqueVertices := s.uniqueVertices ++ [v]
      buckets := fun b =>
        if b = bucketIndex then (v, s.uniqueVertices.length) :: s.buckets b else s.buckets b }

/-- The specification's whole parse loop. -/
def spec_loadMesh (tris : List Triangle) : SpecState :=
  (vertexStream tris).foldl (spec_processVertex (3 * tris.length)) specInitState

/-! ## Geometry pipeline (main.c), modelled over the reals

The C code computes with 32-bit floats; the model idealises every float as
a real number and `sqrtf` as `Real.sqrt`, which preserves the algorithm's
formulas and branch structure exactly. -/

noncomputable section

/-- Model of `vec3_t`. -/
structure Vec3 where
  x : ℝ
  y : ℝ
  z : ℝ

/-- Model of `ray_t`. -/
structure Ray where
  origin : Vec3
  direction : Vec3

/-- Model of `sphere_t`. -/
structure Sphere where
  center : Vec3
  radius : ℝ

/-- Model of `lighting_t`: the diffuse (`color`) and specular components returned by
the shading routine. -/
structure Lighting where
  color : Vec3
  specular : Vec3

/-- Model of `point_light_t`. -/
structure PointLight where
  position : Vec3
  color : Vec3
  power : ℝ

def vec3_length_squared (v : Vec3) : ℝ := v.x * v.x + v.y * v.y + v.z * v.z

def vec3_length (v : Vec3) : ℝ := Real.sqrt (vec3_length_squared v)

def vec3_normalized (v : Vec3) : Vec3 :=
  let l := vec3_length v
  ⟨v.x / l, v.y / l, v.z / l⟩

def vec3_scale (v : Vec3) (scale : ℝ) : Vec3 := ⟨v.x * scale, v.y * scale, v.z * scale⟩

def vec3_add (a b : Vec3) : Vec3 := ⟨a.x + b.x, a.y + b.y, a.z + b.z⟩

def vec3_sub (a b : Vec3) : Vec3 := ⟨a.x - b.x, a.y - b.y, a.z - b.z⟩

def vec3_dot (a b : Vec3) : ℝ := a.x * b.x + a.y * b.y + a.z * b.z

def clampf (value min max : ℝ) : ℝ :=
  if value < min then min else if value > max then max else value

/-- Function `ray_sphere_intersection` (main.c lines 77–89): solve the quadratic;
`none` models returning `false`, `some t` models returning `true` with the
out-parameter set to the near root.  No `t ≥ 0` test and no far root. -/
def ray_sphere_intersection (r : Ray) (s : Sphere) : Option ℝ :=
  let oc : Vec3 :=
    ⟨r.origin.x - s.center.x, r.origin.y - s.center.y, r.origin.z - s.center.z⟩
  let a := r.direction.x * r.direction.x + r.direction.y * r.direction.y +
    r.direction.z * r.direction.z
  let b := 2 * (oc.x * r.direction.x + oc.y * r.direction.y + oc.z * r.direction.z)
  let c := oc.x * oc.x + oc.y * oc.y + oc.z * oc.z - s.radius * s.radius
  let discriminant := b * b - 4 * a * c
  if discriminant < 0 then none
  else some ((-b - Real.sqrt discriminant) / (2 * a))

/-- A reported hit: distance, outward normal, hit position (the three out
parameters of the C routine). -/
structure Hit where
  t : ℝ
  normal : Vec3
  position : Vec3

/-- Function `ray_sphere_intersection_with_normal_and_position` (main.c lines
91–100). -/
def ray_sphere_intersection_with_normal_and_position (r : Ray) (s : Sphere) : Option Hit :=
  match ray_sphere_intersection r s with
  | none => none
  | some t =>
      let position := vec3_add r.origin (vec3_scale r.direction t)
      let normal := vec3_scale (vec3_sub position s.center) (1 / s.radius)
      some ⟨t, normal, position⟩

/-- Function `blinn_phong_shading` (main.c lines 102–129).  The float `powf` on the
clamped specular dot product is modelled by `Real.rpow`. -/
def blinn_phong_shading (pl : PointLight) (surface_position surface_normal view_direction : Vec3)
    (specular_hardness : ℝ) : Lighting :=
  if pl.power < 0 then ⟨⟨0, 0, 0⟩, ⟨0, 0, 0⟩⟩
  else
    let light_direction := vec3_sub pl.position surface_position
    let distance_squared := vec3_length_squared light_direction
    let distance := Real.sqrt distance_squared
    let light_direction' := vec3_scale light_direction (1 / distance)
    let NdotL := vec3_dot surface_normal light_direction'
    let intensity := clampf NdotL 0 1
    let color := vec3_scale pl.color (intensity * pl.power / distance_squared)
    let half_vector := vec3_normalized (vec3_add light_direction' view_direction)
    let NdotH := vec3_dot surface_normal half_vector
    let specular_intensity := Real.rpow (clampf NdotH 0 1) specular_hardness
    let specular := vec3_scale pl.color (specular_intensity * pl.power / distance_squared)
    ⟨color, specular⟩

/-- The C cast `(uint8_t) clampf(v * 255, 0, 255)`: scale by 255, clamp to
`[0, 255]`, truncate to an integer (the clamped value is non-negative, so
C truncation toward zero is the floor). -/
def channel_byte (v : ℝ) : ℤ := Int.floor (clampf (v * 255) 0 255)

/-- The RGB triple the render loop writes for a hit pixel (main.c lines
232–235): each channel comes from the diffuse `lighting.color` only. -/
def write_rgb (l : Lighting) : ℤ × ℤ × ℤ :=
  (channel_byte l.color.x, channel_byte l.color.y, channel_byte l.color.z)

/-- The RGB triple as the specification words it: diffuse and specular
combined additively before scaling and clamping.  Kept for comparison with
`write_rgb`. -/
def spec_write_rgb (l : Lighting) : ℤ × ℤ × ℤ :=
  (channel_byte (l.color.x + l.specular.x),
   channel_byte (l.color.y + l.specular.y),
   channel_byte (l.color.z + l.specular.z))

/-- The fixed light of the render loop (`light1`). -/
def light1 : PointLight := ⟨⟨-1, -1, 0⟩, ⟨1, 1, 1⟩, 1⟩

/-- The fixed sphere of the render loop. -/
def scene_sphere : Sphere := ⟨⟨0, 0, -2⟩, 1⟩

/-- One iteration of the per-pixel render loop (main.c lines 214–238) for
pixel `(i, j)` of the 640×480 surface: build the camera ray, intersect the
sphere, shade on a hit and write the diffuse color's bytes, else write
black. -/
def render_pixel (i j : ℕ) : ℤ × ℤ × ℤ :=
  let width : ℝ := 640
  let height : ℝ := 480
  let x0 : ℝ := (i : ℝ) / width
  let y0 : ℝ := (j : ℝ) / height
  let x := (2 * x0 - 1) * (width / height)
  let y := 2 * y0 - 1
  let ray : Ray := ⟨⟨0, 0, 0⟩, vec3_normalized ⟨x, y, -1⟩⟩
  match ray_sphere_intersection_with_normal_and_position ray scene_sphere with
  | none => (0, 0, 0)
  | some h =>
      let lighting := blinn_phong_shading light1 h.position h.normal ray.direction 20
      write_rgb lighting

end

/-- The spec's description of the intersection routine, for comparison with
`ray_sphere_intersection_with_normal_and_position`: coefficients as dot
products, a miss exactly when the discriminant is negative, otherwise the
near root only with position `origin + t·direction` and normal
`(position - center) / radius`. -/
noncomputable def spec_ray_sphere_intersection (r : Ray) (s : Sphere) : Option Hit :=
  let a := vec3_dot r.direction r.direction
  let b := 2 * vec3_dot (vec3_sub r.origin s.center) r.direction
  let c := vec3_dot (vec3_sub r.origin s.center) (vec3_sub r.origin s.center) - s.radius ^ 2
  if b ^ 2 - 4 * a * c < 0 then none
  else
    let t := (-b - Real.sqrt (b ^ 2 - 4 * a * c)) / (2 * a)
    let position := vec3_add r.origin (vec3_scale r.direction t)
    some ⟨t, vec3_scale (vec3_sub position s.center) (1 / s.radius), position⟩

/-! ## Concrete inputs used by witnesses and counterexamples -/

/-- Bit pattern of the float `1.0f`. -/
def oneBits : ℕ := 0x3f800000

/-- Bit pattern of the float `0.5f`. -/
def halfBits : ℕ := 0x3f000000

/-- A triangle with three pairwise distinct vertices `(0,0,0)`,
`(0.5,0,0)`, `(1,0,0)` whose first two vertices hash to the same bucket
when the table has 3 buckets. -/
def collisionTriangle : Triangle :=
  ⟨⟨0, 0, 0⟩, ⟨halfBits, 0, 0⟩, ⟨oneBits, 0, 0⟩⟩

/-- A triangle that repeats the vertex `(0,0,0)` at its first and third
corners. -/
def repeatTriangle : Triangle :=
  ⟨⟨0, 0, 0⟩, ⟨oneBits, 0, 0⟩, ⟨0, 0, 0⟩⟩

/-- The minimal STL file of the end-to-end scenario: 80 zero header bytes,
triangle count 1, one triangle with vertices `(0,0,0)`, `(1,0,0)`,
`(0,1,0)` (floats stored little-endian), zero normal and attribute
count. -/
def c2Bytes : List ℕ :=
  List.replicate 80 0 ++ [1, 0, 0, 0] ++
    List.replicate 12 0 ++
    List.replicate 12 0 ++
    ([0, 0, 0x80, 0x3f] ++ List.replicate 8 0) ++
    (List.replicate 4 0 ++ [0, 0, 0x80, 0x3f] ++ List.replicate 4 0) ++
    [0, 0]

/-! ## Loader invariants -/

/-- Well-formedness of a loader state: the arena and the unique-vertex
array grow in lockstep, installed bucket heads are valid arena indices,
and every allocated node carries a valid unique-vertex index whose entry
is its key, with a null next pointer. -/
def StateWF (s : LoaderState) : Prop :=
  s.nodes.length = s.uniqueVertices.length ∧
  (∀ b ni, s.buckets b = some ni → ni < s.nodes.length) ∧
  ∀ nd ∈ s.nodes, nd.value < s.uniqueVertices.length ∧
    s.uniqueVertices.get? nd.value = some nd.key ∧ nd.next = none

/-- The table invariant claimed of the parse: every stored node's value is
a valid index into the unique-vertex sequence, the vertex there is
bit-identical to the node's key, every node's next pointer is null, and
the number of allocated nodes equals the unique-vertex count. -/
def TableInv (s : LoaderState) : Prop :=
  (∀ nd ∈ s.nodes, nd.value < s.uniqueVertices.length ∧
    s.uniqueVertices.get? nd.value = some nd.key ∧ nd.next = none) ∧
  s.nodes.length = s.uniqueVertices.length

/-! ## Structural lemmas about the deduplication loop -/

theorem processStream_append (nb : ℕ) (s : LoaderState) (l₁ l₂ : List Vec3b) :
    processStream nb s (l₁ ++ l₂) = processStream nb (processStream nb s l₁) l₂ :=
  List.foldl_append _ _ _ _

theorem length_processVertex (nb : ℕ) (s : LoaderState) (v : Vec3b) :
    s.uniqueVertices.length ≤ (processVertex nb s v).uniqueVertices.length ∧
    (processVertex nb s v).uniqueVertices.length ≤ s.uniqueVertices.length + 1 := by
  unfold processVertex
  cases hb : s.buckets (hash v.x v.y v.z % nb) <;> simp [hb]

theorem count_mono_processStream (nb : ℕ) (l : List Vec3b) (s : LoaderState) :
    s.uniqueVertices.length ≤ (processStream nb s l).uniqueVertices.length := by
  induction l generalizing s with
  | nil => exact le_refl _
  | cons v l ih =>
      exact le_trans (length_processVertex nb s v).1 (ih (processVertex nb s v))

theorem count_le_processStream (nb : ℕ) (l : List Vec3b) (s : LoaderState) :
    (processStream nb s l).uniqueVertices.length ≤ s.uniqueVertices.length + l.length := by
  induction l generalizing s with
  | nil => simp [processStream]
  | cons v l ih =>
      calc (processStream nb s (v :: l)).uniqueVertices.length
          ≤ (processVertex nb s v).uniqueVertices.length + l.length := ih _
        _ ≤ s.uniqueVertices.length + 1 + l.length :=
            Nat.add_le_add_right (length_processVertex nb s v).2 _
        _ = s.uniqueVertices.length + (v :: l).length := by simp; omega

theorem vertexStream_cons (t : Triangle) (ts : List Triangle) :
    vertexStream (t :: ts) = [t.v0, t.v1, t.v2] ++ vertexStream ts := rfl

theorem vertexStream_length (tris : List Triangle) :
    (vertexStream tris).length = 3 * tris.length := by
  induction tris with
  | nil => rfl
  | cons t ts ih => simp [vertexStream_cons, ih]; omega

theorem foldl_processTriangle_eq (nb : ℕ) (ts : List Triangle) (s : LoaderState) :
    ts.foldl (processTriangle nb) s = processStream nb s (vertexStream ts) := by
  induction ts generalizing s with
  | nil => rfl
  | cons t ts ih =>
      rw [List.foldl_cons, ih, vertexStream_cons, processStream_append]
      rfl

theorem loadMesh_eq_processStream (tris : List Triangle) :
    loadMesh tris = processStream (3 * tris.length) initState (vertexStream tris) :=
  foldl_processTriangle_eq _ _ _

theorem processVertex_occupied (nb : ℕ) (s : LoaderState) (v : Vec3b) (ni : ℕ)
    (hb : s.buckets (hash v.x v.y v.z % nb) = some ni) : processVertex nb s v = s := by
  unfold processVertex
  dsimp only
  rw [hb]

theorem processVertex_empty (nb : ℕ) (s : LoaderState) (v : Vec3b)
    (hb : s.buckets (hash v.x v.y v.z % nb) = none) :
    processVertex nb s v =
      { uniqueVertices := s.uniqueVertices ++ [v]
        nodes := s.nodes ++ [{ key := v, value := s.uniqueVertices.length, next := none }]
        buckets := fun b =>
          if b = hash v.x v.y v.z % nb then some s.nodes.length else s.buckets b } := by
  unfold processVertex
  dsimp only
  rw [hb]

theorem buckets_mono_processVertex (nb : ℕ) (s : LoaderState) (v : Vec3b) (b x : ℕ)
    (h : s.buckets b = some x) : (processVertex nb s v).buckets b = some x := by
  cases hb : s.buckets (hash v.x v.y v.z % nb) with
  | some ni => rw [processVertex_occupied nb s v ni hb]; exact h
  | none =>
      rw [processVertex_empty nb s v hb]
      dsimp only
      split
      · next heq => rw [heq] at h; rw [h] at hb; cases hb
      · exact h

theorem nodes_get_mono_processVertex (nb : ℕ) (s : LoaderState) (v : Vec3b) (ni : ℕ) (nd : HNode)
    (h : s.nodes.get? ni = some nd) : (processVertex nb s v).nodes.get? ni = some nd := by
  have hlt : ni < s.nodes.length := by
    by_contra hge
    rw [List.get?_eq_none.mpr (Nat.le_of_not_lt hge)] at h
    cases h
  cases hb : s.buckets (hash v.x v.y v.z % nb) with
  | some x => rw [processVertex_occupied nb s v x hb]; exact h
  | none =>
      rw [processVertex_empty nb s v hb]
      dsimp only
      rw [List.get?_append hlt]
      exact h

theorem assignedIndex_mono_processVertex (nb : ℕ) (s : LoaderState) (v w : Vec3b) (k : ℕ)
    (h : assignedIndex nb s w = some k) :
    assignedIndex nb (processVertex nb s v) w = some k := by
  unfold assignedIndex at h ⊢
  cases hb : s.buckets (hash w.x w.y w.z % nb) with
  | none => rw [hb] at h; cases h
  | some ni =>
      rw [hb] at h
      rw [buckets_mono_processVertex nb s v _ ni hb]
      dsimp only at h ⊢
      obtain ⟨nd, hnd, hval⟩ := Option.map_eq_some'.mp h
      rw [nodes_get_mono_processVertex nb s v ni nd hnd]
      simpa using hval

theorem assignedIndex_mono_processStream (nb : ℕ) (s : LoaderState) (l : List Vec3b)
    (w : Vec3b) (k : ℕ) (h : assignedIndex nb s w = some k) :
    assignedIndex nb (processStream nb s l) w = some k := by
  induction l generalizing s with
  | nil => exact h
  | cons v l ih =>
      exact ih (processVertex nb s v) (assignedIndex_mono_processVertex nb s v w k h)

theorem stateWF_init : StateWF initState := by
  refine ⟨rfl, ?_, ?_⟩
  · intro b ni h; cases h
  · intro nd hnd; cases hnd

theorem stateWF_processVertex (nb : ℕ) (s : LoaderState) (v : Vec3b) (h : StateWF s) :
    StateWF (processVertex nb s v) := by
  obtain ⟨h1, h2, h3⟩ := h
  cases hb : s.buckets (hash v.x v.y v.z % nb) with
  | some x => rw [processVertex_occupied nb s v x hb]; exact ⟨h1, h2, h3⟩
  | none =>
      rw [processVertex_empty nb s v hb]
      refine ⟨by simp [h1], ?_, ?_⟩
      · intro b ni hbi
        dsimp only at hbi ⊢
        simp only [List.length_append, List.length_cons, List.length_nil]
        split at hbi
        · cases hbi; omega
        · have := h2 _ _ hbi; omega
      · intro nd hnd
        rcases List.mem_append.mp hnd with hold | hnew
        · obtain ⟨hv, hg, hn⟩ := h3 nd hold
          refine ⟨by simp; omega, ?_, hn⟩
          dsimp only
          rw [List.get?_append hv]
          exact hg
        · rcases List.mem_singleton.mp hnew with rfl
          refine ⟨by simp, ?_, rfl⟩
          simp [List.get?_concat_length]

theorem stateWF_processStream (nb : ℕ) (s : LoaderState) (l : List Vec3b) (h : StateWF s) :
    StateWF (processStream nb s l) := by
  induction l generalizing s with
  | nil => exact h
  | cons v l ih => exact ih _ (stateWF_processVertex nb s v h)

theorem assignedIndex_after_processVertex (nb : ℕ) (s : LoaderState) (v : Vec3b)
    (h : StateWF s) : ∃ k, assignedIndex nb (processVertex nb s v) v = some k := by
  obtain ⟨h1, h2, h3⟩ := h
  cases hb : s.buckets (hash v.x v.y v.z % nb) with
  | some ni =>
      rw [processVertex_occupied nb s v ni hb]
      unfold assignedIndex
      rw [hb]
      dsimp only
      have hlt := h2 _ _ hb
      rw [List.get?_eq_get hlt]
      exact ⟨(s.nodes.get ⟨ni, hlt⟩).value, rfl⟩
  | none =>
      rw [processVertex_empty nb s v hb]
      unfold assignedIndex
      dsimp only
      rw [if_pos rfl]
      exact ⟨s.uniqueVertices.length, by simp [List.get?_concat_length]⟩

theorem assignedIndex_split (nb : ℕ) (l₁ l₂ : List Vec3b) (v : Vec3b) :
    assignedIndex nb (processStream nb initState ((l₁ ++ [v]) ++ l₂)) v =
      assignedIndex nb (processStream nb initState (l₁ ++ [v])) v := by
  obtain ⟨k, hk⟩ := assignedIndex_after_processVertex nb (processStream nb initState l₁) v
    (stateWF_processStream nb initState l₁ stateWF_init)
  have h1 : assignedIndex nb (processStream nb initState (l₁ ++ [v])) v = some k := by
    rw [processStream_append]; exact hk
  rw [h1, processStream_append nb initState (l₁ ++ [v]) l₂]
  exact assignedIndex_mono_processStream nb _ l₂ v k h1

theorem occIndex_eq_final (tris : List Triangle) (k : ℕ) (v : Vec3b)
    (h : (vertexStream tris).get? k = some v) :
    occIndex tris k =
      assignedIndex (3 * tris.length)
        (processStream (3 * tris.length) initState (vertexStream tris)) v := by
  unfold occIndex
  dsimp only
  rw [h]
  have htake : (vertexStream tris).take (k + 1) = (vertexStream tris).take k ++ [v] := by
    rw [List.take_succ]
    rw [← List.get?_eq_getElem?, h]
    rfl
  have hsplit : ((vertexStream tris).take k ++ [v]) ++ (vertexStream tris).drop (k + 1) =
      vertexStream tris := by
    rw [← htake, List.take_append_drop]
  calc assignedIndex (3 * tris.length)
        (processStream (3 * tris.length) initState ((vertexStream tris).take (k + 1))) v
      = assignedIndex (3 * tris.length)
          (processStream (3 * tris.length) initState
            (((vertexStream tris).take k ++ [v]) ++ (vertexStream tris).drop (k + 1))) v := by
        rw [htake, assignedIndex_split]
    _ = assignedIndex (3 * tris.length)
          (processStream (3 * tris.length) initState (vertexStream tris)) v := by rw [hsplit]

/-! ## Algebra of the fingerprint hash -/

theorem shiftRight_xor_distrib_nat (a b k : ℕ) : (a ^^^ b) >>> k = (a >>> k) ^^^ (b >>> k) := by
  apply Nat.eq_of_testBit_eq
  intro i
  simp [Nat.testBit_shiftRight, Nat.testBit_xor]

theorem xorshift_xorshift (k x : ℕ) : xorshift k (xorshift k x) = x ^^^ (x >>> (2 * k)) := by
  unfold xorshift
  rw [shiftRight_xor_distrib_nat, ← Nat.shiftRight_add, show k + k = 2 * k by omega]
  rw [Nat.xor_assoc, Nat.xor_cancel_left]

theorem shiftRight_eq_zero_of_lt (x k : ℕ) (hx : x < 2 ^ 32) (hk : 32 ≤ k) : x >>> k = 0 := by
  rw [Nat.shiftRight_eq_div_pow]
  exact Nat.div_eq_of_lt (lt_of_lt_of_le hx (Nat.pow_le_pow_right (by norm_num) hk))

theorem xorshift_invol (k x : ℕ) (hx : x < 2 ^ 32) (hk : 16 ≤ k) :
    xorshift k (xorshift k x) = x := by
  rw [xorshift_xorshift, shiftRight_eq_zero_of_lt x (2 * k) hx (by omega), Nat.xor_zero]

theorem xorshift_lt (k x : ℕ) (hx : x < 2 ^ 32) : xorshift k x < 2 ^ 32 :=
  Nat.xor_lt_two_pow hx
    (lt_of_le_of_lt (Nat.shiftRight_eq_div_pow x k ▸ Nat.div_le_self x (2 ^ k)) hx)

theorem xorshift_inj (k a b : ℕ) (hk : 8 ≤ k) (ha : a < 2 ^ 32) (hb : b < 2 ^ 32)
    (h : xorshift k a = xorshift k b) : a = b := by
  have h2 : xorshift (2 * k) a = xorshift (2 * k) b := by
    have h3 := congrArg (xorshift k) h
    rwa [xorshift_xorshift, xorshift_xorshift] at h3
  calc a = xorshift (2 * k) (xorshift (2 * k) a) := (xorshift_invol (2 * k) a ha (by omega)).symm
    _ = xorshift (2 * k) (xorshift (2 * k) b) := by rw [h2]
    _ = b := xorshift_invol (2 * k) b hb (by omega)

theorem mulwrap_lt (c x : ℕ) : mulwrap c x < 2 ^ 32 := Nat.mod_lt _ (by norm_num)

theorem mulwrap_cancel (c cinv x : ℕ) (hcc : (c * cinv) % 2 ^ 32 = 1) (hx : x < 2 ^ 32) :
    (mulwrap c x * cinv) % 2 ^ 32 = x := by
  unfold mulwrap
  rw [Nat.mod_mul_mod, Nat.mul_assoc, Nat.mul_mod, hcc, Nat.mul_one]
  omega

theorem mulwrap_inj (c cinv a b : ℕ) (hcc : (c * cinv) % 2 ^ 32 = 1)
    (ha : a < 2 ^ 32) (hb : b < 2 ^ 32) (h : mulwrap c a = mulwrap c b) : a = b := by
  calc a = (mulwrap c a * cinv) % 2 ^ 32 := (mulwrap_cancel c cinv a hcc ha).symm
    _ = (mulwrap c b * cinv) % 2 ^ 32 := by rw [h]
    _ = b := mulwrap_cancel c cinv b hcc hb

theorem int_hash32_eq_stages (x : ℕ) :
    int_hash32 x =
      xorshift 14 (mulwrap 0x31848bab (xorshift 15 (mulwrap 0xac4c1b51
        (xorshift 11 (mulwrap 0xed5ad4bb (xorshift 17 x)))))) := rfl

theorem int_hash32_lt (x : ℕ) : int_hash32 x < 2 ^ 32 := by
  rw [int_hash32_eq_stages]
  exact xorshift_lt 14 _ (mulwrap_lt _ _)

theorem int_hash32_inj (a b : ℕ) (ha : a < 2 ^ 32) (hb : b < 2 ^ 32)
    (h : int_hash32 a = int_hash32 b) : a = b := by
  rw [int_hash32_eq_stages, int_hash32_eq_stages] at h
  have h1 := xorshift_inj 14 _ _ (by norm_num) (mulwrap_lt _ _) (mulwrap_lt _ _) h
  have h2 := mulwrap_inj 0x31848bab 0x32b21703 _ _ (by norm_num)
    (xorshift_lt 15 _ (mulwrap_lt _ _)) (xorshift_lt 15 _ (mulwrap_lt _ _)) h1
  have h3 := xorshift_inj 15 _ _ (by norm_num) (mulwrap_lt _ _) (mulwrap_lt _ _) h2
  have h4 := mulwrap_inj 0xac4c1b51 0x469e0db1 _ _ (by norm_num)
    (xorshift_lt 11 _ (mulwrap_lt _ _)) (xorshift_lt 11 _ (mulwrap_lt _ _)) h3
  have h5 := xorshift_inj 11 _ _ (by norm_num) (mulwrap_lt _ _) (mulwrap_lt _ _) h4
  have h6 := mulwrap_inj 0xed5ad4bb 0x79a85073 _ _ (by norm_num)
    (xorshift_lt 17 _ ha) (xorshift_lt 17 _ hb) h5
  exact xorshift_inj 17 _ _ (by norm_num) ha hb h6

theorem hash_eq_stages (x y z : ℕ) :
    hash x y z = int_hash32 (int_hash32 (int_hash32 (0 ^^^ x) ^^^ y) ^^^ z) := rfl

theorem hash_inj_x (x x' y z : ℕ) (hx : x < 2 ^ 32) (hx' : x' < 2 ^ 32)
    (hy : y < 2 ^ 32) (hz : z < 2 ^ 32) (h : hash x y z = hash x' y z) : x = x' := by
  rw [hash_eq_stages, hash_eq_stages] at h
  have ha1 : int_hash32 (0 ^^^ x) ^^^ y < 2 ^ 32 := Nat.xor_lt_two_pow (int_hash32_lt _) hy
  have ha1' : int_hash32 (0 ^^^ x') ^^^ y < 2 ^ 32 := Nat.xor_lt_two_pow (int_hash32_lt _) hy
  have ha2 : int_hash32 (int_hash32 (0 ^^^ x) ^^^ y) ^^^ z < 2 ^ 32 :=
    Nat.xor_lt_two_pow (int_hash32_lt _) hz
  have ha2' : int_hash32 (int_hash32 (0 ^^^ x') ^^^ y) ^^^ z < 2 ^ 32 :=
    Nat.xor_lt_two_pow (int_hash32_lt _) hz
  have h1 := int_hash32_inj _ _ ha2 ha2' h
  have h2 := Nat.xor_left_inj.mp h1
  have h3 := int_hash32_inj _ _ ha1 ha1' h2
  have h4 := Nat.xor_left_inj.mp h3
  have h5 := int_hash32_inj _ _ (by simpa using hx) (by simpa using hx') h4
  simpa using h5

theorem hash_inj_y (x y y' z : ℕ) (hy : y < 2 ^ 32) (hy' : y' < 2 ^ 32) (hz : z < 2 ^ 32)
    (h : hash x y z = hash x y' z) : y = y' := by
  rw [hash_eq_stages, hash_eq_stages] at h
  have ha1 : int_hash32 (0 ^^^ x) ^^^ y < 2 ^ 32 := Nat.xor_lt_two_pow (int_hash32_lt _) hy
  have ha1' : int_hash32 (0 ^^^ x) ^^^ y' < 2 ^ 32 := Nat.xor_lt_two_pow (int_hash32_lt _) hy'
  have ha2 : int_hash32 (int_hash32 (0 ^^^ x) ^^^ y) ^^^ z < 2 ^ 32 :=
    Nat.xor_lt_two_pow (int_hash32_lt _) hz
  have ha2' : int_hash32 (int_hash32 (0 ^^^ x) ^^^ y') ^^^ z < 2 ^ 32 :=
    Nat.xor_lt_two_pow (int_hash32_lt _) hz
  have h1 := int_hash32_inj _ _ ha2 ha2' h
  have h2 := Nat.xor_left_inj.mp h1
  have h3 := int_hash32_inj _ _ ha1 ha1' h2
  exact Nat.xor_right_inj.mp h3

theorem hash_inj_z (x y z z' : ℕ) (hz : z < 2 ^ 32) (hz' : z' < 2 ^ 32)
    (h : hash x y z = hash x y z') : z = z' := by
  rw [hash_eq_stages, hash_eq_stages] at h
  have ha2 : int_hash32 (int_hash32 (0 ^^^ x) ^^^ y) ^^^ z < 2 ^ 32 :=
    Nat.xor_lt_two_pow (int_hash32_lt _) hz
  have ha2' : int_hash32 (int_hash32 (0 ^^^ x) ^^^ y) ^^^ z' < 2 ^ 32 :=
    Nat.xor_lt_two_pow (int_hash32_lt _) hz'
  have h1 := int_hash32_inj _ _ ha2 ha2' h
  exact Nat.xor_right_inj.mp h1

theorem xor_pow_ne_self (x i : ℕ) : x ^^^ 2 ^ i ≠ x := by
  intro h
  have h2 : (2 : ℕ) ^ i = 0 := by
    have h3 := congrArg (fun t => t ^^^ x) h
    simpa [Nat.xor_comm, Nat.xor_assoc, Nat.xor_cancel_left] using h3
  exact Nat.pos_iff_ne_zero.mp (Nat.pos_pow_of_pos i (by norm_num)) h2

/-! ## The claims -/

set_option maxRecDepth 10000

/-- C1: the claim says the deduplicator walks the chosen bucket's chain
comparing raw bit patterns and inserts exactly when no bit-identical key is
found.  The code instead tests only bucket emptiness: on the mesh of one
triangle whose three pairwise distinct vertices include two that share a
bucket, the code keeps 2 unique vertices while the claimed chain-walking
algorithm (`spec_loadMesh`) keeps all 3 — the second vertex is silently
misclassified as a duplicate. -/
theorem c1_single_node_per_bucket :
    collisionTriangle.v0 ≠ collisionTriangle.v1 ∧
    hash collisionTriangle.v0.x collisionTriangle.v0.y collisionTriangle.v0.z % 3 =
      hash collisionTriangle.v1.x collisionTriangle.v1.y collisionTriangle.v1.z % 3 ∧
    (loadMesh [collisionTriangle]).uniqueVertices.length = 2 ∧
    (spec_loadMesh [collisionTriangle]).uniqueVertices.length = 3 :=
  ⟨by decide, by decide, by decide, by decide⟩

/-- C2: parsing the minimal STL stream (80-byte zero header, triangle count
1, one triangle with vertices `(0,0,0)`, `(1,0,0)`, `(0,1,0)`) yields
exactly 3 unique vertices. -/
theorem c2_end_to_end :
    (loadSTL c2Bytes).map (fun s => s.uniqueVertices.length) = some 3 := by decide

/-- C3: any two vertex occurrences in the triangle stream whose three
components are bit-identical are associated with the same unique-vertex
index, regardless of triangle or position within a triangle. -/
theorem c3_bit_identical_same_index (tris : List Triangle) (n m : ℕ) (v1 v2 : Vec3b)
    (hn : (vertexStream tris).get? n = some v1)
    (hm : (vertexStream tris).get? m = some v2)
    (hx : v1.x = v2.x) (hy : v1.y = v2.y) (hz : v1.z = v2.z) :
    occIndex tris n = occIndex tris m := by
  have hv : v1 = v2 := by
    cases v1; cases v2; cases hx; cases hy; cases hz; rfl
  subst hv
  rw [occIndex_eq_final tris n v1 hn, occIndex_eq_final tris m v1 hm]

/-- Witness for C3: in a triangle repeating the vertex `(0,0,0)` at its
first and third corners, occurrences 0 and 2 get the same index. -/
theorem c3_witness :
    (vertexStream [repeatTriangle]).get? 0 = some ⟨0, 0, 0⟩ ∧
    (vertexStream [repeatTriangle]).get? 2 = some ⟨0, 0, 0⟩ ∧
    occIndex [repeatTriangle] 0 = occIndex [repeatTriangle] 2 :=
  ⟨rfl, rfl, c3_bit_identical_same_index [repeatTriangle] 0 2 ⟨0, 0, 0⟩ ⟨0, 0, 0⟩ rfl rfl rfl rfl rfl⟩

/-- C4: the unique-vertex count never exceeds `3 × triangle_count`, the
parse is the fold of the per-vertex step over the vertex stream, and the
count is monotonically non-decreasing along every prefix of that stream. -/
theorem c4_count_bound_and_monotone (tris : List Triangle) :
    (loadMesh tris).uniqueVertices.length ≤ 3 * tris.length ∧
    loadMesh tris = processStream (3 * tris.length) initState (vertexStream tris) ∧
    ∀ (nb : ℕ) (l₁ l₂ : List Vec3b),
      (processStream nb initState l₁).uniqueVertices.length ≤
        (processStream nb initState (l₁ ++ l₂)).uniqueVertices.length := by
  refine ⟨?_, loadMesh_eq_processStream tris, ?_⟩
  · rw [loadMesh_eq_processStream tris]
    have h := count_le_processStream (3 * tris.length) (vertexStream tris) initState
    rwa [vertexStream_length, show initState.uniqueVertices.length = 0 from rfl,
      Nat.zero_add] at h
  · intro nb l₁ l₂
    rw [processStream_append]
    exact count_mono_processStream nb l₂ _

/-- C5: the intersection routine computes the quadratic coefficients
`a = dot(d, d)`, `b = 2·dot(o − c, d)`, `c = dot(o − c, o − c) − r²`,
reports a miss exactly when the discriminant is negative, and otherwise
reports the near root only — no `t ≥ 0` filter, no far root — with
position `origin + t·direction` and normal `(position − center)/radius`. -/
theorem c5_intersection_formulas (r : Ray) (s : Sphere) :
    ray_sphere_intersection_with_normal_and_position r s = spec_ray_sphere_intersection r s := by
  have hmap : ray_sphere_intersection_with_normal_and_position r s =
      (ray_sphere_intersection r s).map
        (fun t =>
          { t := t
            normal := vec3_scale (vec3_sub (vec3_add r.origin (vec3_scale r.direction t)) s.center)
              (1 / s.radius)
            position := vec3_add r.origin (vec3_scale r.direction t) }) := by
    unfold ray_sphere_intersection_with_normal_and_position
    cases ray_sphere_intersection r s <;> rfl
  rw [hmap]
  unfold ray_sphere_intersection spec_ray_sphere_intersection
  dsimp only [vec3_dot, vec3_sub]
  simp only [pow_two]
  split_ifs with h
  · rfl
  · rfl

/-- C6: the sphere at `(0,0,−2)` with radius 1 and the ray from the origin
with direction `(0,0,−1)` intersect at `t = 1` with hit position
`(0,0,−1)` and normal `(0,0,1)`. -/
theorem c6_concrete_hit :
    ray_sphere_intersection_with_normal_and_position ⟨⟨0, 0, 0⟩, ⟨0, 0, -1⟩⟩ ⟨⟨0, 0, -2⟩, 1⟩ =
      some ⟨1, ⟨0, 0, 1⟩, ⟨0, 0, -1⟩⟩ := by
  have h4 : Real.sqrt 4 = 2 := Real.sqrt_eq_cases.mpr (Or.inl ⟨by norm_num, by norm_num⟩)
  unfold ray_sphere_intersection_with_normal_and_position ray_sphere_intersection
  norm_num
  rw [h4]
  norm_num [vec3_add, vec3_scale, vec3_sub]

/-- C7: the render loop's written RGB triple ignores the shading result's
specular component entirely (first conjunct), and the claimed formula —
diffuse and specular combined additively before scaling and clamping —
disagrees with the written one already at the lighting result with diffuse
`(1/2, 0, 0)` and specular `(1/2, 0, 0)`: channel 127 versus 255. -/
theorem c7_written_color_ignores_specular :
    (∀ (c s1 s2 : Vec3), write_rgb ⟨c, s1⟩ = write_rgb ⟨c, s2⟩) ∧
    write_rgb ⟨⟨1 / 2, 0, 0⟩, ⟨1 / 2, 0, 0⟩⟩ ≠ spec_write_rgb ⟨⟨1 / 2, 0, 0⟩, ⟨1 / 2, 0, 0⟩⟩ := by
  constructor
  · intro c s1 s2; rfl
  · have hL : channel_byte (1 / 2) = 127 := by
      unfold channel_byte clampf
      rw [if_neg (by norm_num), if_neg (by norm_num)]
      exact Int.floor_eq_iff.mpr ⟨by norm_num, by norm_num⟩
    have hR : channel_byte (1 / 2 + 1 / 2) = 255 := by
      unfold channel_byte clampf
      rw [if_neg (by norm_num), if_neg (by norm_num)]
      exact Int.floor_eq_iff.mpr ⟨by norm_num, by norm_num⟩
    intro h
    have h1 := congrArg Prod.fst h
    unfold write_rgb spec_write_rgb at h1
    dsimp only at h1
    rw [hL, hR] at h1
    cases h1

/-- C8: Blinn-Phong shading with a light of negative power returns zero for
both the diffuse and the specular component, whatever the other inputs. -/
theorem c8_negative_power_zero (pl : PointLight)
    (surface_position surface_normal view_direction : Vec3)
    (specular_hardness : ℝ) (h : pl.power < 0) :
    blinn_phong_shading pl surface_position surface_normal view_direction specular_hardness =
      ⟨⟨0, 0, 0⟩, ⟨0, 0, 0⟩⟩ := by
  unfold blinn_phong_shading
  rw [if_pos h]

/-- Witness for C8: a light of power `−1` at a concrete surface point. -/
theorem c8_witness :
    (PointLight.power ⟨⟨0, 0, 0⟩, ⟨1, 1, 1⟩, -1⟩ < 0) ∧
    blinn_phong_shading ⟨⟨0, 0, 0⟩, ⟨1, 1, 1⟩, -1⟩ ⟨0, 0, -1⟩ ⟨0, 0, 1⟩ ⟨0, 0, -1⟩ 20 =
      ⟨⟨0, 0, 0⟩, ⟨0, 0, 0⟩⟩ :=
  ⟨by norm_num, c8_negative_power_zero _ _ _ _ _ (by norm_num)⟩

/-- C9: the fingerprint hash is a pure function of its three inputs'
bit patterns (determinism is immediate in the functional model), and
flipping any single bit of any one input component changes the 32-bit
output. -/
theorem c9_hash_deterministic_and_bit_sensitive (x y z i : ℕ)
    (hx : x < 2 ^ 32) (hy : y < 2 ^ 32) (hz : z < 2 ^ 32) (hi : i < 32) :
    hash x y z = hash x y z ∧
    hash (x ^^^ 2 ^ i) y z ≠ hash x y z ∧
    hash x (y ^^^ 2 ^ i) z ≠ hash x y z ∧
    hash x y (z ^^^ 2 ^ i) ≠ hash x y z := by
  have hpow : (2 : ℕ) ^ i < 2 ^ 32 := Nat.pow_lt_pow_right (by norm_num) hi
  refine ⟨rfl, ?_, ?_, ?_⟩
  · intro h
    exact xor_pow_ne_self x i
      (hash_inj_x _ _ y z (Nat.xor_lt_two_pow hx hpow) hx hy hz h)
  · intro h
    exact xor_pow_ne_self y i
      (hash_inj_y x _ _ z (Nat.xor_lt_two_pow hy hpow) hy hz h)
  · intro h
    exact xor_pow_ne_self z i
      (hash_inj_z x y _ _ (Nat.xor_lt_two_pow hz hpow) hz h)

/-- Witness for C9: flipping bit 0 of any component of `(0, 0, 0)` changes
the hash. -/
theorem c9_witness :
    (0 : ℕ) < 2 ^ 32 ∧ (0 : ℕ) < 32 ∧
    (hash (0 ^^^ 2 ^ 0) 0 0 ≠ hash 0 0 0 ∧
      hash 0 (0 ^^^ 2 ^ 0) 0 ≠ hash 0 0 0 ∧
      hash 0 0 (0 ^^^ 2 ^ 0) ≠ hash 0 0 0) :=
  ⟨by norm_num, by norm_num,
    (c9_hash_deterministic_and_bit_sensitive 0 0 0 0 (by norm_num) (by norm_num)
      (by norm_num) (by norm_num)).2⟩

/-- C10: throughout the parse (every prefix of the vertex stream) and after
it completes, every allocated node's value is a valid unique-vertex index,
the vertex stored there is bit-identical to the node's key, every node's
next pointer is null, and the number of allocated nodes equals the
unique-vertex count. -/
theorem c10_table_invariant :
    (∀ (nb : ℕ) (l : List Vec3b), TableInv (processStream nb initState l)) ∧
    ∀ tris : List Triangle, TableInv (loadMesh tris) := by
  have key : ∀ (nb : ℕ) (l : List Vec3b), TableInv (processStream nb initState l) := by
    intro nb l
    obtain ⟨h1, _, h3⟩ := stateWF_processStream nb initState l stateWF_init
    exact ⟨h3, h1⟩
  refine ⟨key, ?_⟩
  intro tris
  rw [loadMesh_eq_processStream tris]
  exact key _ _

/-- Witness for C10: the invariant holds concretely after loading the
collision triangle's mesh. -/
theorem c10_witness : TableInv (loadMesh [collisionTriangle]) :=
  c10_table_invariant.2 [collisionTriangle]
